import Mathlib

/-!
Verification of the MetricsRepository store described by the repository's
specification and exercised by the tutorial notebook
src/tutorials/repository.ipynb.  The notebook only calls the store, so the
store itself is modelled from the specification; the captured notebook
output is used as the authority on observable behaviour, in particular on
the spelling of the multicolumn entity category, which every output row
renders as Mutlicolumn.
-/

namespace PyDeequ

/-- Modelled from the spec: the enumerated entity category of a metric.
The notebook output renders the third category as Mutlicolumn in every
row, matching the underlying engine's enumeration, so the model keeps
that spelling. -/
inductive Entity where
  | Dataset : Entity
  | Column : Entity
  | Mutlicolumn : Entity
deriving DecidableEq, Repr

/-- Modelled from the spec: a metric value is either a computed double
(modelled as a rational) or a failure marker carried as data. -/
inductive MetricValue where
  | success (v : ℚ) : MetricValue
  | failure (msg : String) : MetricValue
deriving DecidableEq, Repr

/-- Modelled from the spec: one scalar measurement. The field holding the
specific target is called instance in the source; Lean reserves that word,
so the model names it inst. -/
structure MetricRecord where
  entity : Entity
  inst : String
  name : String
  value : MetricValue
deriving DecidableEq, Repr

/-- Modelled from the spec: identifies one analysis run by a millisecond
timestamp and an arbitrary string-to-string tag map, kept as an
association list whose insertion order is irrelevant for key equality. -/
structure ResultKey where
  timestamp : Nat
  tags : List (String × String)
deriving DecidableEq, Repr

/-- Modelled from the spec: the persisted unit, one ResultKey paired with
the metric records computed in that run. -/
structure RepositoryEntry where
  key : ResultKey
  records : List MetricRecord
deriving DecidableEq, Repr

/-- Modelled from the spec: the store is logically a sequence of entries
in insertion order, append-only log semantics. -/
abbrev Store := List RepositoryEntry

/-- Lookup of a tag key in a tag map, first match. -/
def lookupTag (tags : List (String × String)) (k : String) : Option String :=
  (tags.find? (fun p => decide (p.fst = k))).map Prod.snd

/-- The keys of a tag map. -/
def tagKeys (tags : List (String × String)) : List String :=
  tags.map Prod.fst

/-- Exact map equality of two tag maps: they agree on every key of either. -/
def tagsEqB (a b : List (String × String)) : Bool :=
  (tagKeys a ++ tagKeys b).all (fun k => decide (lookupTag a k = lookupTag b k))

/-- ResultKey matching used by save: same timestamp and equal tag map. -/
def sameKeyB (k1 k2 : ResultKey) : Bool :=
  decide (k1.timestamp = k2.timestamp) && tagsEqB k1.tags k2.tags

/-- The analyzer identity of a record: its entity, instance and name. -/
def recId (m : MetricRecord) : Entity × String × String :=
  (m.entity, m.inst, m.name)

/-- Whether some record in the list carries the given analyzer identity. -/
def containsId (rs : List MetricRecord) (id : Entity × String × String) : Bool :=
  rs.any (fun m => decide (recId m = id))

/-- First record in the list carrying the given analyzer identity. -/
def lookupRecord (rs : List MetricRecord) (id : Entity × String × String) :
    Option MetricRecord :=
  rs.find? (fun m => decide (recId m = id))

/-- Modelled from the spec: merge incoming records into existing ones,
incoming values overwriting existing records at colliding identities. -/
def mergeRecords (old incoming : List MetricRecord) : List MetricRecord :=
  old.filter (fun m => !(containsId incoming (recId m))) ++ incoming

/-- Modelled from the spec: locate an existing entry whose ResultKey has
the same timestamp and tag map; if found merge the incoming records into
it, otherwise append a new entry at the end. -/
def save_or_append : Store → ResultKey → List MetricRecord → Store
  | [], k, r => [⟨k, r⟩]
  | e :: rest, k, r =>
    if sameKeyB e.key k then ⟨e.key, mergeRecords e.records r⟩ :: rest
    else e :: save_or_append rest k r

/-- Modelled from the spec: load returns a query builder seeded with all
stored entries; the builder is the entry list itself. -/
def load (s : Store) : List RepositoryEntry := s

/-- Modelled from the spec: the three narrowing calls of the query builder. -/
inductive Narrow where
  | before (t : Nat) : Narrow
  | after (t : Nat) : Narrow
  | with_tag_values (req : List (String × String)) : Narrow

/-- Whether a tag map is a superset of the required tags: every required
key present with an equal value. -/
def tagsSupersetB (tags req : List (String × String)) : Bool :=
  req.all (fun p => decide (lookupTag tags p.fst = some p.snd))

/-- The predicate a narrowing call keeps entries by. -/
def sat : Narrow → RepositoryEntry → Bool
  | .before t, e => decide (e.key.timestamp < t)
  | .after t, e => decide (t < e.key.timestamp)
  | .with_tag_values req, e => tagsSupersetB e.key.tags req

/-- Applying one narrowing call to a query builder. -/
def applyNarrow (n : Narrow) (q : List RepositoryEntry) : List RepositoryEntry :=
  q.filter (sat n)

/-- Applying a chain of narrowing calls left to right. -/
def applyNarrows (ns : List Narrow) (q : List RepositoryEntry) : List RepositoryEntry :=
  ns.foldl (fun acc n => applyNarrow n acc) q

/-- The string the store renders an entity category as, exactly as shown
in every notebook output row. -/
def entityName : Entity → String
  | .Dataset => "Dataset"
  | .Column => "Column"
  | .Mutlicolumn => "Mutlicolumn"

/-- One row of the success table: entity, instance, name, value, the
entry's timestamp as dataset_date, and the entry's tags. -/
structure Row where
  entity : String
  inst : String
  name : String
  value : ℚ
  dataset_date : Nat
  tags : List (String × String)
deriving DecidableEq, Repr

/-- One row of the failed-metrics table, the value replaced by the
failure message. -/
structure FailedRow where
  entity : String
  inst : String
  name : String
  failure : String
  dataset_date : Nat
  tags : List (String × String)
deriving DecidableEq, Repr

/-- Success rows of one entry, in metric insertion order. -/
def successRowsRec : ResultKey → List MetricRecord → List Row
  | _, [] => []
  | k, m :: rest =>
    match m.value with
    | .success v =>
      ⟨entityName m.entity, m.inst, m.name, v, k.timestamp, k.tags⟩ ::
        successRowsRec k rest
    | .failure _ => successRowsRec k rest

/-- Success rows contributed by one surviving entry. -/
def successRows (e : RepositoryEntry) : List Row :=
  successRowsRec e.key e.records

/-- Failed rows of one entry, in metric insertion order. -/
def failedRowsRec : ResultKey → List MetricRecord → List FailedRow
  | _, [] => []
  | k, m :: rest =>
    match m.value with
    | .success _ => failedRowsRec k rest
    | .failure msg =>
      ⟨entityName m.entity, m.inst, m.name, msg, k.timestamp, k.tags⟩ ::
        failedRowsRec k rest

/-- Failed rows contributed by one surviving entry. -/
def failedRows (e : RepositoryEntry) : List FailedRow :=
  failedRowsRec e.key e.records

/-- Modelled from the spec: flatten surviving entries into success rows,
entry by entry in order. -/
def get_success_metrics_as_table : List RepositoryEntry → List Row
  | [] => []
  | e :: rest => successRows e ++ get_success_metrics_as_table rest

/-- Modelled from the spec: flatten surviving entries into failed rows,
entry by entry in order. -/
def get_failed_metrics_as_table : List RepositoryEntry → List FailedRow
  | [] => []
  | e :: rest => failedRows e ++ get_failed_metrics_as_table rest

/-- Modelled from the spec: the persisted representation is a structured
document, an ordered sequence of entries each serialized as one structured
object; the textual JSON rendering is abstracted as this value type. -/
inductive Json where
  | null : Json
  | str (s : String) : Json
  | int (i : Int) : Json
  | num (q : ℚ) : Json
  | arr (items : List Json) : Json
  | obj (fields : List (String × Json)) : Json

/-- Serialize a tag map as an object of string fields. -/
def encodeTags (tags : List (String × String)) : Json :=
  .obj (tags.map (fun p => (p.fst, Json.str p.snd)))

/-- Serialize a metric value: a number on success, the failure message on
failure. -/
def encodeValue : MetricValue → Json
  | .success v => .num v
  | .failure msg => .str msg

/-- Serialize one metric record as an object with fields entity, instance,
name and value. -/
def encodeRecord (m : MetricRecord) : Json :=
  .obj [("entity", .str (entityName m.entity)), ("instance", .str m.inst),
        ("name", .str m.name), ("value", encodeValue m.value)]

/-- Serialize one entry as an object with its resultKey, holding
dataset_date and tags, and its metrics array. -/
def encodeEntry (e : RepositoryEntry) : Json :=
  .obj [("resultKey", .obj [("dataset_date", .int (e.key.timestamp : Int)),
                            ("tags", encodeTags e.key.tags)]),
        ("metrics", .arr (e.records.map encodeRecord))]

/-- Serialize the whole store as the ordered array of its entries. -/
def encodeDoc (s : Store) : Json :=
  .arr (s.map encodeEntry)

/-- Parse an entity category; anything else is a corrupt store. -/
def decodeEntity : Json → Except String Entity
  | .str "Dataset" => .ok .Dataset
  | .str "Column" => .ok .Column
  | .str "Mutlicolumn" => .ok .Mutlicolumn
  | _ => .error "CorruptStore: unknown entity"

/-- Parse a metric value. -/
def decodeValue : Json → Except String MetricValue
  | .num q => .ok (.success q)
  | .str msg => .ok (.failure msg)
  | _ => .error "CorruptStore: bad metric value"

/-- Parse the fields of a tags object, failing closed on any non-string. -/
def decodeTagList : List (String × Json) → Except String (List (String × String))
  | [] => .ok []
  | (k, .str v) :: rest =>
    match decodeTagList rest with
    | .ok ts => .ok ((k, v) :: ts)
    | .error msg => .error msg
  | _ => .error "CorruptStore: bad tag value"

/-- Parse a tags object. -/
def decodeTags : Json → Except String (List (String × String))
  | .obj fields => decodeTagList fields
  | _ => .error "CorruptStore: bad tags"

/-- Parse one metric record, failing closed on any shape mismatch. -/
def decodeRecord : Json → Except String MetricRecord
  | .obj [("entity", je), ("instance", .str i), ("name", .str n), ("value", jv)] =>
    match decodeEntity je, decodeValue jv with
    | .ok ent, .ok v => .ok ⟨ent, i, n, v⟩
    | .error msg, _ => .error msg
    | _, .error msg => .error msg
  | _ => .error "CorruptStore: bad metric record"

/-- Parse an array of metric records. -/
def decodeRecordList : List Json → Except String (List MetricRecord)
  | [] => .ok []
  | j :: rest =>
    match decodeRecord j, decodeRecordList rest with
    | .ok m, .ok ms => .ok (m :: ms)
    | .error msg, _ => .error msg
    | _, .error msg => .error msg

/-- Parse one entry, failing closed on any shape mismatch. -/
def decodeEntry : Json → Except String RepositoryEntry
  | .obj [("resultKey", .obj [("dataset_date", .int i), ("tags", jt)]),
          ("metrics", .arr jms)] =>
    if 0 ≤ i then
      match decodeTags jt, decodeRecordList jms with
      | .ok ts, .ok ms => .ok ⟨⟨i.toNat, ts⟩, ms⟩
      | .error msg, _ => .error msg
      | _, .error msg => .error msg
    else .error "CorruptStore: negative timestamp"
  | _ => .error "CorruptStore: bad entry"

/-- Parse an ordered sequence of entries. -/
def decodeEntryList : List Json → Except String Store
  | [] => .ok []
  | j :: rest =>
    match decodeEntry j, decodeEntryList rest with
    | .ok e, .ok es => .ok (e :: es)
    | .error msg, _ => .error msg
    | _, .error msg => .error msg

/-- Parse the whole persisted document back into a store. -/
def decodeDoc : Json → Except String Store
  | .arr items => decodeEntryList items
  | _ => .error "CorruptStore: bad document"

/-- Modelled from the spec: a repository instance, its state being the
stored entry sequence. -/
structure Repository where
  entries : Store
deriving DecidableEq

/-- One API call against a repository: a save, or a read that loads,
narrows and takes the success table. -/
inductive Op where
  | save (k : ResultKey) (r : List MetricRecord) : Op
  | read (ns : List Narrow) : Op

/-- Whether an operation is one of the read-only query operations. -/
def Op.isRead : Op → Bool
  | .save _ _ => false
  | .read _ => true

/-- Step an in-memory repository by one operation, returning the next
state and the read output if the operation was a read. -/
def step : Repository → Op → Repository × Option (List Row)
  | repo, .save k r => (⟨save_or_append repo.entries k r⟩, none)
  | repo, .read ns =>
    (repo, some (get_success_metrics_as_table (applyNarrows ns (load repo.entries))))

/-- Run a sequence of operations on an in-memory repository. -/
def runOps : Repository → List Op → Repository
  | repo, [] => repo
  | repo, op :: rest => runOps (step repo op).fst rest

/-- Run a sequence of operations on an in-memory repository and collect
the read outputs in order. -/
def runTrace : Repository → List Op → Repository × List (List Row)
  | repo, [] => (repo, [])
  | repo, op :: rest =>
    match step repo op with
    | (repo2, out) =>
      match runTrace repo2 rest with
      | (repoF, outs) =>
        (repoF, match out with | some t => t :: outs | none => outs)

/-- Step a file-backed repository, whose state is the persisted document:
a save reads the document, merges, and rewrites the whole document; a
read parses the document and queries the parsed entries, surfacing a
corrupt document as an error. -/
def stepFS : Json → Op → Json × Option (Except String (List Row))
  | doc, .save k r =>
    (match decodeDoc doc with
     | .ok s => encodeDoc (save_or_append s k r)
     | .error _ => doc, none)
  | doc, .read ns =>
    (doc, some (match decodeDoc doc with
     | .ok s => .ok (get_success_metrics_as_table (applyNarrows ns (load s)))
     | .error msg => .error msg))

/-- Run a sequence of operations on a file-backed repository and collect
the read outputs in order. -/
def runTraceFS : Json → List Op → Json × List (Except String (List Row))
  | doc, [] => (doc, [])
  | doc, op :: rest =>
    match stepFS doc op with
    | (doc2, out) =>
      match runTraceFS doc2 rest with
      | (docF, outs) =>
        (docF, match out with | some t => t :: outs | none => outs)

/-- First entry found whose ResultKey matches the given key. -/
def findEntry (s : Store) (k : ResultKey) : Option RepositoryEntry :=
  s.find? (fun e => sameKeyB e.key k)

/-- Number of stored entries whose ResultKey matches the given key. -/
def countMatching (s : Store) (k : ResultKey) : Nat :=
  (s.filter (fun e => sameKeyB e.key k)).length

/-- The notebook scenario, first run: dataset size of the electronics
subset, saved at timestamp 1000 under the electronics tag. -/
def recSizeE : MetricRecord := ⟨.Dataset, "*", "Size", .success 100⟩

/-- The notebook scenario, second run: dataset size of the books subset,
saved at timestamp 2000 under the books tag. -/
def recSizeB : MetricRecord := ⟨.Dataset, "*", "Size", .success 200⟩

/-- ResultKey of the electronics run. -/
def keyElectronics : ResultKey := ⟨1000, [("tag", "electronics")]⟩

/-- ResultKey of the books run. -/
def keyBooks : ResultKey := ⟨2000, [("tag", "books")]⟩

/-- Entry produced by the electronics run. -/
def entryElectronics : RepositoryEntry := ⟨keyElectronics, [recSizeE]⟩

/-- Entry produced by the books run. -/
def entryBooks : RepositoryEntry := ⟨keyBooks, [recSizeB]⟩

/-- Store after saving the electronics run and then the books run. -/
def demoStore : Store :=
  save_or_append (save_or_append [] keyElectronics [recSizeE]) keyBooks [recSizeB]

/-- Store after saving the books run first and the electronics run second,
so the entry timestamps appear in decreasing order. -/
def demoStoreRev : Store :=
  save_or_append (save_or_append [] keyBooks [recSizeB]) keyElectronics [recSizeE]

theorem lookupTag_eq_none_of_not_mem (tags : List (String × String)) (x : String)
    (h : x ∉ tagKeys tags) : lookupTag tags x = none := by
  unfold lookupTag
  rw [List.find?_eq_none.mpr]
  · rfl
  · intro p hp
    simp only [decide_eq_true_eq]
    intro hx
    exact h (by rw [tagKeys]; exact List.mem_map.mpr ⟨p, hp, hx⟩)

theorem tagsEqB_iff (a b : List (String × String)) :
    tagsEqB a b = true ↔ ∀ x, lookupTag a x = lookupTag b x := by
  constructor
  · intro h x
    rw [tagsEqB, List.all_eq_true] at h
    by_cases hx : x ∈ tagKeys a ++ tagKeys b
    · simpa using h x hx
    · rw [List.mem_append] at hx
      push_neg at hx
      rw [lookupTag_eq_none_of_not_mem a x hx.1, lookupTag_eq_none_of_not_mem b x hx.2]
  · intro h
    rw [tagsEqB, List.all_eq_true]
    intro x _
    simpa using h x

theorem sameKeyB_iff (k1 k2 : ResultKey) :
    sameKeyB k1 k2 = true ↔
      k1.timestamp = k2.timestamp ∧ ∀ x, lookupTag k1.tags x = lookupTag k2.tags x := by
  rw [sameKeyB, Bool.and_eq_true, decide_eq_true_eq, tagsEqB_iff]

theorem sameKeyB_refl (k : ResultKey) : sameKeyB k k = true := by
  rw [sameKeyB_iff]
  exact ⟨rfl, fun _ => rfl⟩

theorem sameKeyB_of_both (a k1 k2 : ResultKey) (h1 : sameKeyB a k1 = true)
    (h2 : sameKeyB a k2 = true) : sameKeyB k1 k2 = true := by
  rw [sameKeyB_iff] at h1 h2 ⊢
  exact ⟨h1.1 ▸ h2.1, fun x => (h1.2 x) ▸ h2.2 x⟩

/-- C2: before and after are strict, exclusive filters: an entry survives
before t exactly when its timestamp is less than t, survives after t
exactly when its timestamp is greater than t, and an entry whose
timestamp equals t is excluded by both. -/
theorem c2_before_after_strict (s : Store) (t : Nat) (e : RepositoryEntry) :
    (e ∈ applyNarrow (.before t) (load s) ↔ e ∈ s ∧ e.key.timestamp < t) ∧
    (e ∈ applyNarrow (.after t) (load s) ↔ e ∈ s ∧ t < e.key.timestamp) ∧
    (e.key.timestamp = t →
      e ∉ applyNarrow (.before t) (load s) ∧ e ∉ applyNarrow (.after t) (load s)) := by
  refine ⟨?_, ?_, ?_⟩
  · simp [applyNarrow, load, sat, List.mem_filter]
  · simp [applyNarrow, load, sat, List.mem_filter]
  · intro ht
    constructor
    · simp [applyNarrow, load, sat, List.mem_filter, ht]
    · simp [applyNarrow, load, sat, List.mem_filter, ht]

theorem c2_witness :
    entryElectronics ∉ applyNarrow (.before 1000) (load demoStore) ∧
    entryElectronics ∉ applyNarrow (.after 1000) (load demoStore) :=
  (c2_before_after_strict demoStore 1000 entryElectronics).2.2 rfl

/-- C3: with_tag_values keeps exactly the entries whose tag map is a
superset of the required tags, every required key present with an equal
value; extra tag keys never cause exclusion, so requiring the books tag
excludes an electronics-tagged entry and keeps a books-tagged entry that
carries an additional tag key. -/
theorem c3_with_tag_values_superset (s : Store) (req : List (String × String))
    (e : RepositoryEntry) :
    (e ∈ applyNarrow (.with_tag_values req) (load s) ↔
      e ∈ s ∧ ∀ p ∈ req, lookupTag e.key.tags p.fst = some p.snd) ∧
    sat (.with_tag_values [("tag", "books")]) ⟨⟨0, [("tag", "electronics")]⟩, []⟩ = false ∧
    sat (.with_tag_values [("tag", "books")]) ⟨⟨0, [("tag", "books"), ("other", "x")]⟩, []⟩ = true := by
  refine ⟨?_, by decide, by decide⟩
  simp [applyNarrow, load, sat, tagsSupersetB, List.mem_filter, List.all_eq_true]

theorem c3_witness :
    entryBooks ∈ applyNarrow (.with_tag_values [("tag", "books")]) (load demoStore) := by
  refine (c3_with_tag_values_superset demoStore [("tag", "books")] entryBooks).1.mpr ⟨?_, ?_⟩
  · decide
  · decide

/-- C4: any two narrowing calls compose conjunctively and commute: the
second applied after the first keeps exactly the entries satisfying both
predicates, and swapping the two calls yields the same entry list. -/
theorem c4_narrow_compose_commute (n1 n2 : Narrow) (q : List RepositoryEntry) :
    applyNarrow n2 (applyNarrow n1 q) = q.filter (fun e => sat n1 e && sat n2 e) ∧
    applyNarrow n2 (applyNarrow n1 q) = applyNarrow n1 (applyNarrow n2 q) := by
  constructor
  · rw [applyNarrow, applyNarrow, List.filter_filter]
    exact List.filter_congr (fun e _ => Bool.and_comm _ _)
  · rw [applyNarrow, applyNarrow, applyNarrow, applyNarrow,
      List.filter_filter, List.filter_filter]
    exact List.filter_congr (fun e _ => Bool.and_comm _ _)

theorem applyNarrows_eq_filter (ns : List Narrow) (q : List RepositoryEntry) :
    applyNarrows ns q = q.filter (fun e => ns.all (fun n => sat n e)) := by
  induction ns generalizing q with
  | nil => simp [applyNarrows, List.filter_true]
  | cons n ns ih =>
    show applyNarrows ns (applyNarrow n q) = _
    rw [ih, applyNarrow, List.filter_filter]
    exact List.filter_congr (fun e _ => by rw [List.all_cons, Bool.and_comm])

theorem success_table_flatMap (l : List RepositoryEntry) :
    get_success_metrics_as_table l = l.flatMap successRows := by
  induction l with
  | nil => rfl
  | cons e rest ih => rw [get_success_metrics_as_table, ih, List.flatMap_cons]

theorem failed_table_flatMap (l : List RepositoryEntry) :
    get_failed_metrics_as_table l = l.flatMap failedRows := by
  induction l with
  | nil => rfl
  | cons e rest ih => rw [get_failed_metrics_as_table, ih, List.flatMap_cons]

/-- C6: the rows the terminal accessors return follow entry insertion
order and, within one entry, metric insertion order: the table of any
narrowed query is exactly the in-order flattening of the surviving
entries, with no sort applied; on the store whose entries were appended
with timestamps 2000 then 1000, the output timestamps stay in that
unsorted order. -/
theorem c6_output_order (s : Store) (ns : List Narrow) :
    get_success_metrics_as_table (applyNarrows ns (load s)) =
      ((load s).filter (fun e => ns.all (fun n => sat n e))).flatMap successRows ∧
    get_failed_metrics_as_table (applyNarrows ns (load s)) =
      ((load s).filter (fun e => ns.all (fun n => sat n e))).flatMap failedRows ∧
    (get_success_metrics_as_table (load demoStoreRev)).map Row.dataset_date = [2000, 1000] := by
  refine ⟨?_, ?_, by decide⟩
  · rw [applyNarrows_eq_filter, success_table_flatMap]
  · rw [applyNarrows_eq_filter, failed_table_flatMap]

/-- C7: query operations never fail on an empty result: on the empty
store, and whenever every entry is filtered out, the terminal accessors
return the empty table. -/
theorem c7_empty_result (s : Store) (ns : List Narrow) :
    get_success_metrics_as_table (applyNarrows ns (load ([] : Store))) = [] ∧
    get_failed_metrics_as_table (applyNarrows ns (load ([] : Store))) = [] ∧
    (applyNarrows ns (load s) = [] →
      get_success_metrics_as_table (applyNarrows ns (load s)) = [] ∧
      get_failed_metrics_as_table (applyNarrows ns (load s)) = []) := by
  refine ⟨?_, ?_, ?_⟩
  · rw [load, applyNarrows_eq_filter]
    rfl
  · rw [load, applyNarrows_eq_filter]
    rfl
  · intro h
    rw [h]
    exact ⟨rfl, rfl⟩

theorem c7_witness :
    get_success_metrics_as_table (applyNarrows [Narrow.before 0] (load demoStore)) = [] ∧
    get_failed_metrics_as_table (applyNarrows [Narrow.before 0] (load demoStore)) = [] :=
  (c7_empty_result demoStore [Narrow.before 0]).2.2 (by decide)

theorem save_length_of_matching (s : Store) (k : ResultKey) (r : List MetricRecord)
    (h : ∃ e ∈ s, sameKeyB e.key k = true) :
    (save_or_append s k r).length = s.length := by
  induction s with
  | nil => obtain ⟨e, he, _⟩ := h; cases he
  | cons e rest ih =>
    rw [save_or_append]
    by_cases hk : sameKeyB e.key k = true
    · rw [if_pos hk]
      rfl
    · rw [if_neg hk, List.length_cons, List.length_cons]
      obtain ⟨e2, he2, hk2⟩ := h
      rcases List.mem_cons.mp he2 with h1 | h2
      · exact absurd (h1 ▸ hk2) hk
      · rw [ih ⟨e2, h2, hk2⟩]

theorem save_append_of_no_match (s : Store) (k : ResultKey) (r : List MetricRecord)
    (h : ∀ e ∈ s, sameKeyB e.key k = false) :
    save_or_append s k r = s ++ [⟨k, r⟩] := by
  induction s with
  | nil => rfl
  | cons e rest ih =>
    rw [save_or_append, if_neg (by rw [h e (List.mem_cons_self e rest)]; simp),
      ih (fun x hx => h x (List.mem_cons_of_mem e hx)), List.cons_append]

theorem lookupRecord_merge (old incoming : List MetricRecord)
    (id : Entity × String × String) (h : containsId incoming id = true) :
    lookupRecord (mergeRecords old incoming) id = lookupRecord incoming id := by
  rw [mergeRecords, lookupRecord, List.find?_append, lookupRecord]
  have hnone : (old.filter (fun m => !(containsId incoming (recId m)))).find?
      (fun m => decide (recId m = id)) = none := by
    rw [List.find?_eq_none]
    intro m hm
    simp only [decide_eq_true_eq]
    intro hid
    have := (List.mem_filter.mp hm).2
    rw [hid, h] at this
    cases this
  rw [hnone, Option.none_or]

theorem findEntry_save_overwrites (s : Store) (k : ResultKey) (r : List MetricRecord) :
    ∀ e', findEntry (save_or_append s k r) k = some e' →
      ∀ id, containsId r id = true → lookupRecord e'.records id = lookupRecord r id := by
  induction s with
  | nil =>
    intro e' he' id _
    rw [save_or_append, findEntry, List.find?_cons, sameKeyB_refl] at he'
    cases he'
    rfl
  | cons e rest ih =>
    intro e' he' id hid
    rw [save_or_append] at he'
    by_cases hk : sameKeyB e.key k = true
    · rw [if_pos hk, findEntry, List.find?_cons, hk] at he'
      cases he'
      exact lookupRecord_merge e.records r id hid
    · rw [if_neg hk, findEntry, List.find?_cons] at he'
      rw [Bool.not_eq_true] at hk
      rw [hk] at he'
      exact ih e' he' id hid

theorem countMatching_save_self (s : Store) (k : ResultKey) (r : List MetricRecord) :
    1 ≤ countMatching (save_or_append s k r) k := by
  induction s with
  | nil =>
    rw [save_or_append, countMatching, List.filter_cons, sameKeyB_refl]
    simp
  | cons e rest ih =>
    rw [save_or_append]
    by_cases hk : sameKeyB e.key k = true
    · rw [if_pos hk, countMatching, List.filter_cons]
      simp [hk]
    · rw [if_neg hk, countMatching, List.filter_cons]
      rw [Bool.not_eq_true] at hk
      rw [hk]
      exact ih

theorem countMatching_save_mono (s : Store) (k2 : ResultKey) (r2 : List MetricRecord)
    (k : ResultKey) : countMatching s k ≤ countMatching (save_or_append s k2 r2) k := by
  induction s with
  | nil => exact Nat.zero_le _
  | cons e rest ih =>
    rw [save_or_append]
    by_cases hk : sameKeyB e.key k2 = true
    · rw [if_pos hk, countMatching, countMatching, List.filter_cons, List.filter_cons]
      cases sameKeyB e.key k <;> simp
    · rw [if_neg hk, countMatching, countMatching, List.filter_cons, List.filter_cons]
      cases sameKeyB e.key k
      · exact ih
      · simpa using ih

theorem filter_or_length {α : Type} (p q : α → Bool) (l : List α)
    (h : ∀ a ∈ l, ¬(p a = true ∧ q a = true)) :
    (l.filter (fun a => p a || q a)).length = (l.filter p).length + (l.filter q).length := by
  induction l with
  | nil => rfl
  | cons a rest ih =>
    have hrest := ih (fun x hx => h x (List.mem_cons_of_mem a hx))
    have ha := h a (List.mem_cons_self a rest)
    cases hp : p a
    · cases hq : q a
      · simp [List.filter_cons, hp, hq, hrest]
      · simp [List.filter_cons, hp, hq, hrest]
        try omega
    · cases hq : q a
      · simp [List.filter_cons, hp, hq, hrest]
        try omega
      · exact absurd ⟨hp, hq⟩ ha

/-- C1: save_or_append merges into the entry whose ResultKey has the same
timestamp and tag map when one exists, keeping the entry count unchanged
and letting incoming records overwrite stored ones at colliding analyzer
identities; when no entry matches, it appends a new entry at the end; and
saving under two keys that match differently yields two distinct entries. -/
theorem c1_save_or_append_semantics (s : Store) (k : ResultKey) (r : List MetricRecord) :
    ((∃ e ∈ s, sameKeyB e.key k = true) → (save_or_append s k r).length = s.length) ∧
    ((∀ e ∈ s, sameKeyB e.key k = false) → save_or_append s k r = s ++ [⟨k, r⟩]) ∧
    (∀ e', findEntry (save_or_append s k r) k = some e' →
      ∀ id, containsId r id = true → lookupRecord e'.records id = lookupRecord r id) ∧
    (∀ k2 r2, sameKeyB k k2 = false →
      2 ≤ ((save_or_append (save_or_append s k r) k2 r2).filter
             (fun e => sameKeyB e.key k || sameKeyB e.key k2)).length) := by
  refine ⟨save_length_of_matching s k r, save_append_of_no_match s k r,
    findEntry_save_overwrites s k r, ?_⟩
  intro k2 r2 hk
  have h1 : 1 ≤ countMatching (save_or_append (save_or_append s k r) k2 r2) k :=
    le_trans (countMatching_save_self s k r) (countMatching_save_mono _ k2 r2 k)
  have h2 : 1 ≤ countMatching (save_or_append (save_or_append s k r) k2 r2) k2 :=
    countMatching_save_self _ k2 r2
  have hdisj : ∀ e ∈ save_or_append (save_or_append s k r) k2 r2,
      ¬(sameKeyB e.key k = true ∧ sameKeyB e.key k2 = true) := by
    intro e _ ⟨ha, hb⟩
    rw [sameKeyB_of_both e.key k k2 ha hb] at hk
    cases hk
  rw [filter_or_length _ _ _ hdisj]
  rw [countMatching] at h1 h2
  omega

theorem c1_witness :
    (save_or_append [entryElectronics] keyElectronics [recSizeB]).length = 1 ∧
    save_or_append [entryElectronics] keyBooks [recSizeB] =
      [entryElectronics] ++ [⟨keyBooks, [recSizeB]⟩] ∧
    lookupRecord (mergeRecords [recSizeE] [recSizeB]) (recId recSizeB) =
      lookupRecord [recSizeB] (recId recSizeB) ∧
    2 ≤ ((save_or_append (save_or_append [entryElectronics] keyElectronics [recSizeB])
           keyBooks [recSizeB]).filter
           (fun e => sameKeyB e.key keyElectronics || sameKeyB e.key keyBooks)).length := by
  refine ⟨?_, ?_, ?_, ?_⟩
  · exact (c1_save_or_append_semantics [entryElectronics] keyElectronics [recSizeB]).1
      ⟨entryElectronics, by decide, by decide⟩
  · exact (c1_save_or_append_semantics [entryElectronics] keyBooks [recSizeB]).2.1 (by decide)
  · exact (c1_save_or_append_semantics [entryElectronics] keyElectronics [recSizeB]).2.2.1
      ⟨keyElectronics, mergeRecords [recSizeE] [recSizeB]⟩ (by decide) (recId recSizeB) (by decide)
  · exact (c1_save_or_append_semantics [entryElectronics] keyElectronics [recSizeB]).2.2.2
      keyBooks [recSizeB] (by decide)

theorem decodeTagList_encode (tags : List (String × String)) :
    decodeTagList (tags.map (fun p => (p.fst, Json.str p.snd))) = .ok tags := by
  induction tags with
  | nil => rfl
  | cons p rest ih =>
    rw [List.map_cons, decodeTagList, ih]

theorem decodeTags_encode (tags : List (String × String)) :
    decodeTags (encodeTags tags) = .ok tags :=
  decodeTagList_encode tags

theorem decodeEntity_encode (e : Entity) : decodeEntity (.str (entityName e)) = .ok e := by
  cases e <;> rfl

theorem decodeValue_encode (v : MetricValue) : decodeValue (encodeValue v) = .ok v := by
  cases v <;> rfl

theorem decodeRecord_encode (m : MetricRecord) : decodeRecord (encodeRecord m) = .ok m := by
  rw [encodeRecord, decodeRecord, decodeEntity_encode, decodeValue_encode]

theorem decodeRecordList_encode (ms : List MetricRecord) :
    decodeRecordList (ms.map encodeRecord) = .ok ms := by
  induction ms with
  | nil => rfl
  | cons m rest ih =>
    rw [List.map_cons, decodeRecordList, decodeRecord_encode, ih]

theorem decodeEntry_encode (e : RepositoryEntry) : decodeEntry (encodeEntry e) = .ok e := by
  rw [encodeEntry, decodeEntry]
  rw [if_pos (Int.natCast_nonneg e.key.timestamp)]
  rw [decodeTags_encode, decodeRecordList_encode, Int.toNat_natCast]

theorem decodeEntryList_encode (s : Store) :
    decodeEntryList (s.map encodeEntry) = .ok s := by
  induction s with
  | nil => rfl
  | cons e rest ih =>
    rw [List.map_cons, decodeEntryList, decodeEntry_encode, ih]

theorem decodeDoc_encodeDoc (s : Store) : decodeDoc (encodeDoc s) = .ok s :=
  decodeEntryList_encode s

/-- C5: the persisted representation round-trips exactly: parsing the
serialized document of any entry set yields the entry set back, equal
entry for entry in order, hence equal as sets of entries. -/
theorem c5_round_trip (s : Store) : decodeDoc (encodeDoc s) = Except.ok s :=
  decodeDoc_encodeDoc s

/-- C8: contrary to the claim, the third enumerated entity category is
rendered Mutlicolumn, not Multicolumn, in every stored record and output
row, as every captured notebook output shows; evaluating the accessor on
a multicolumn correlation record exhibits the misspelled category. -/
theorem c8_entity_rendering :
    entityName Entity.Mutlicolumn = "Mutlicolumn" ∧
    (get_success_metrics_as_table
        (load [⟨⟨0, []⟩,
          [⟨.Mutlicolumn, "total_votes,star_rating", "Correlation", .success 1⟩]⟩])).map
      Row.entity = ["Mutlicolumn"] ∧
    "Mutlicolumn" ≠ "Multicolumn" := by
  refine ⟨rfl, rfl, by decide⟩

/-- C9: load and the query operations are read-only: a sequence of reads
leaves the repository state unchanged, a single read never changes the
state, and the rows a read observes after any sequence of reads are the
rows it observes on the original state. -/
theorem c9_read_only (repo : Repository) (ops : List Op)
    (h : ∀ op ∈ ops, op.isRead = true) :
    runOps repo ops = repo ∧
    (∀ ns, (step repo (Op.read ns)).fst = repo) ∧
    (∀ ns, (step (runOps repo ops) (Op.read ns)).snd = (step repo (Op.read ns)).snd) := by
  have hrun : runOps repo ops = repo := by
    induction ops with
    | nil => rfl
    | cons op rest ih =>
      cases op with
      | save k r =>
        have := h (.save k r) (List.mem_cons_self _ _)
        rw [Op.isRead] at this
        cases this
      | read ns =>
        rw [runOps, step]
        exact ih (fun x hx => h x (List.mem_cons_of_mem _ hx))
  exact ⟨hrun, fun _ => rfl, fun ns => by rw [hrun]⟩

theorem c9_witness :
    runOps ⟨demoStore⟩ [Op.read [], Op.read [Narrow.before 1500]] = ⟨demoStore⟩ :=
  (c9_read_only ⟨demoStore⟩ [Op.read [], Op.read [Narrow.before 1500]]
    (by
      intro op hop
      simp only [List.mem_cons, List.not_mem_nil, or_false] at hop
      rcases hop with rfl | rfl <;> rfl)).1

/-- C10: the file-backed and in-memory repositories are behaviorally
interchangeable: running any operation sequence against the persisted
document of a store parses back to the in-memory result state and yields
exactly the in-memory read outputs, each wrapped as a successful result. -/
theorem c10_backends_interchangeable (ops : List Op) (s : Store) :
    runTraceFS (encodeDoc s) ops =
      (encodeDoc (runTrace ⟨s⟩ ops).fst.entries, ((runTrace ⟨s⟩ ops).snd).map Except.ok) := by
  induction ops generalizing s with
  | nil => rfl
  | cons op rest ih =>
    cases op with
    | save k r =>
      simp only [runTraceFS, stepFS, decodeDoc_encodeDoc, runTrace, step,
        ih (save_or_append s k r)]
    | read ns =>
      simp only [runTraceFS, stepFS, decodeDoc_encodeDoc, runTrace, step, ih s,
        List.map_cons]

end PyDeequ
